import Mathlib

/-!
Verification of the pyedifice reconciliation engine (src/edifice).

This file gives a shallow embedding of the parts of `component.py` and
`engine.py` that the claims C1–C10 are about, and proves (or refutes)
each claim against that embedding.

Python objects with attribute dictionaries are modelled as association
lists `List (String × β)` with insertion-ordered, replace-on-update
semantics matching a Python `dict`; an absent attribute is an absent key.
Python exceptions are modelled with `Option`/`Except`.
-/

namespace Edifice

/-! ### Python-dict preliminaries -/

/-- Lookup in a Python-dict modelled as an association list
(first match; keys are unique in a dict so first = only). -/
def lookupA {α β : Type} [DecidableEq α] : List (α × β) → α → Option β
  | [], _ => none
  | (k, v) :: rest, key => if k = key then some v else lookupA rest key

/-- Python `d[key] = v` on a Python dict: replace in place if the key is present
(preserving insertion order), otherwise append. -/
def setA {α β : Type} [DecidableEq α] : List (α × β) → α → β → List (α × β)
  | [], key, v => [(key, v)]
  | (k, w) :: rest, key, v =>
      if k = key then (k, v) :: rest else (k, w) :: setA rest key v

/-! ### Values

A model of the Python values the engine's comparisons distinguish
(`Component.should_update`, component.py lines 287–302):
components (class tag + props dict), numpy/pandas array likes
(class tag + elementwise data), and all other values (compared by `==`,
modelled by an integer payload).
-/

inductive Value : Type where
  | comp (cls : Nat) (props : List (String × Value))
  | arr (cls : Nat) (data : List Int)
  | prim (p : Int)

/-! ### `Component.should_update` (component.py lines 269–311)

The default predicate.  `should_update_helper new old` embeds the inner
`should_update_helper(new_obj, old_obj)`:
  * if either side is a Component: classes differing ⇒ update; otherwise
    recursively `old_obj.should_update(new_obj.props, {})`;
  * else if either side is a numpy/pandas array class: classes differing
    or `not np.array_equal` ⇒ update;
  * else plain `old_obj != new_obj`.
`should_update_props old new` embeds `old.should_update(newprops, {})`:
the loop over `newprops._items` looking each prop up in `old`'s props
(`self.props[prop]`; a missing key raises `KeyError`, modelled by `none`).
-/

mutual

def should_update_helper : Value → Value → Option Bool
  | Value.comp c2 ps2, Value.comp c1 _ps1 =>
      if c1 ≠ c2 then some true else should_update_props _ps1 ps2
  | Value.comp _ _, _ => some true
  | _, Value.comp _ _ => some true
  | Value.arr c2 d2, Value.arr c1 d1 =>
      some (decide (c1 ≠ c2) || decide (d1 ≠ d2))
  | Value.arr _ _, _ => some true
  | _, Value.arr _ _ => some true
  | Value.prim a, Value.prim b => some (decide (b ≠ a))

def should_update_props : List (String × Value) → List (String × Value) → Option Bool
  | _oldProps, [] => some false
  | oldProps, (p, newObj) :: rest =>
      match lookupA oldProps p with
      | none => none
      | some oldObj =>
          match should_update_helper newObj oldObj with
          | none => none
          | some true => some true
          | some false => should_update_props oldProps rest

end

/-- Embeds `Component.should_update(newprops, newstate)` for a component whose
props dict is `props` and whose state attributes are read through
`getattr_` (Python `getattr(self, state)`; a missing attribute raises,
modelled by `none`).  Iterates `newprops._items` then `newstate.items()`,
short-circuiting at the first difference. -/
def component_should_update (props : List (String × Value))
    (getattr_ : String → Option Value)
    (newprops newstate : List (String × Value)) : Option Bool :=
  match should_update_props props newprops with
  | none => none
  | some true => some true
  | some false => go newstate
where
  go : List (String × Value) → Option Bool
  | [] => some false
  | (s, newObj) :: rest =>
      match getattr_ s with
      | none => none
      | some oldObj =>
          match should_update_helper newObj oldObj with
          | none => none
          | some true => some true
          | some false => go rest

/-! ### Render context dirty map (engine.py lines 84–122)

`_RenderContext.need_qt_command_reissue` is a Python dict from component
(identified here by a `Nat` id) to bool.  `mark_qt_rerender` stores a flag;
`need_rerender` reads it with default `False` (`dict.get(component, False)`).
-/

/-- The `need_qt_command_reissue` dict of a `_RenderContext`. -/
def NeedMap : Type := List (Nat × Bool)

/-- Embeds `_RenderContext.mark_qt_rerender(component, need_rerender)`. -/
def mark_qt_rerender (m : NeedMap) (component : Nat) (need : Bool) : NeedMap :=
  setA m component need

/-- Embeds `_RenderContext.need_rerender(component)`:
`self.need_qt_command_reissue.get(component, False)`. -/
def need_rerender (m : NeedMap) (component : Nat) : Bool :=
  (lookupA m component).getD false

/-! ### Shadow tree and command emission (engine.py lines 48–68)

`_QtTree` holds a component and an ordered list of child shadow trees.
Commands are opaque to the engine; we model a command as a `Nat` and give
each component's `_qt_update_commands` result through a function
`cmds : Nat → List Nat` (the widget backend is out of scope and never
interpreted by the engine).
-/

inductive QtTree : Type where
  | mk (component : Nat) (children : List QtTree)

/-- The component at the root of a shadow (sub)tree. -/
def QtTree.component : QtTree → Nat
  | QtTree.mk c _ => c

/-- The child list of a shadow (sub)tree. -/
def QtTree.children : QtTree → List QtTree
  | QtTree.mk _ ch => ch

mutual

/-- Embeds `_QtTree.gen_qt_commands(render_context)`: accumulate each child's
commands in child order; if the render context does not flag this node
for reissue, return just the children's commands; otherwise append this
node's own `_qt_update_commands` output. -/
def gen_qt_commands (cmds : Nat → List Nat) (need : NeedMap) : QtTree → List Nat
  | QtTree.mk c ch =>
      let childCmds := gen_qt_commands_list cmds need ch
      if need_rerender need c then childCmds ++ cmds c else childCmds

/-- The `for child in self.children: commands.extend(...)` loop. -/
def gen_qt_commands_list (cmds : Nat → List Nat) (need : NeedMap) :
    List QtTree → List Nat
  | [] => []
  | t :: ts => gen_qt_commands cmds need t ++ gen_qt_commands_list cmds need ts

end

/-- All components appearing in a shadow tree. -/
def QtTree.comps : QtTree → List Nat
  | QtTree.mk c ch => c :: comps_list ch
where
  comps_list : List QtTree → List Nat
  | [] => []
  | t :: ts => t.comps ++ comps_list ts

/-! ### `_ChangeManager` and `_storage_manager` (engine.py lines 14–45)

Objects are identified by `Nat` and an object's attributes form a partial
map `String → Option β` (`none` = the attribute is absent, so `getattr`
raises and `hasattr` is false).  A log entry records
`(obj, key, hasattr(obj, key), old_value, value)` exactly as
`_ChangeManager.set` appends it; `old_value` starts as Python `None` and
is only filled in when the attribute existed, which we render as
`Option β` (so `e.had = true` iff `e.old` was read off the object).
-/

/-- The attribute state of the whole object heap. -/
def PyState (β : Type) : Type := Nat → String → Option β

/-- Python `setattr(obj, key, v)` (with `v = none` meaning `delattr`). -/
def pset {β : Type} (σ : PyState β) (o : Nat) (k : String) (v : Option β) : PyState β :=
  fun o' k' => if o' = o ∧ k' = k then v else σ o' k'

/-- One undo-log entry of `_ChangeManager.changes`. -/
structure Entry (β : Type) : Type where
  obj : Nat
  key : String
  had : Bool
  old : Option β
  new : β

/-- Embeds `_ChangeManager.set(obj, key, value)`: record
`(obj, key, hasattr(obj, key), old_value, value)` then `setattr`. -/
def cm_set {β : Type} (st : PyState β × List (Entry β)) (o : Nat) (k : String) (v : β) :
    PyState β × List (Entry β) :=
  let old := st.1 o k
  (pset st.1 o k (some v), st.2 ++ [⟨o, k, old.isSome, old, v⟩])

/-- Undo one entry: if the attribute existed, `setattr` its old value
back; otherwise `delattr` it.  (The source's `AttributeError` fallback at
engine.py lines 32–36 only fires when `delattr` fails, which cannot
happen for a plain instance attribute that `setattr` just created.) -/
def undo_entry {β : Type} (σ : PyState β) (e : Entry β) : PyState β :=
  if e.had then pset σ e.obj e.key e.old else pset σ e.obj e.key none

/-- Embeds `_ChangeManager.unwind()`: walk `reversed(self.changes)` undoing each. -/
def cm_unwind {β : Type} (σ : PyState β) (changes : List (Entry β)) : PyState β :=
  changes.reverse.foldl undo_entry σ

/-- A transaction body that performs the writes `ws` in order through
`_ChangeManager.set`. -/
def apply_writes {β : Type} (σ : PyState β) (ws : List (Nat × String × β)) :
    PyState β × List (Entry β) :=
  ws.foldl (fun st w => cm_set st w.1 w.2.1 w.2.2) (σ, [])

/-- Embeds `_storage_manager()`: run the writes; if the body then raises,
`changes.unwind()` runs and the exception propagates (second component
`false`); otherwise the writes stand. -/
def storage_manager_run {β : Type} (σ : PyState β) (ws : List (Nat × String × β))
    (raises : Bool) : PyState β × Bool :=
  let res := apply_writes σ ws
  if raises then (cm_unwind res.1 res.2, false) else (res.1, true)

/-! ### Child-list reconciliation (engine.py lines 234–244 and 262–292)

A component as the reconciler sees it: an identity (`id`, standing for the
Python object identity), a class tag, the optional `_key` attribute, and a
props dict.
-/

structure SComp : Type where
  id : Nat
  cls : Nat
  key : Option String
  props : List (String × Value)

/-- Embeds `App._attach_keys(component, render_context)` (engine.py 240–244):
for each child at index `i` without a `_key`, log the warning
`"Setting child key to: KEY{i}"` and set `_key = "KEY{i}"` (the write goes
through `render_context.set`, i.e. the change manager; modelled as a
direct field update).  Returns the keyed children and the logged
warnings in loop order. -/
def attach_keys (children : List SComp) : List SComp × List String :=
  go 0 children
where
  go : Nat → List SComp → List SComp × List String
  | _, [] => ([], [])
  | i, c :: rest =>
      let r := go (i + 1) rest
      match c.key with
      | some _ => (c :: r.1, r.2)
      | none => ({c with key := some ("KEY" ++ toString i)} :: r.1,
                 ("Setting child key to: KEY" ++ toString i) :: r.2)

/-- Embeds `{child._key: child for child in old_children}` (engine.py 272).
In Python a child without `_key` would raise `AttributeError` here; the
`getD ""` branch is never reached when every old child carries a key,
which the theorems hypothesise. -/
def key_to_old_child (old : List SComp) : List (String × SComp) :=
  old.foldl (fun d c => setA d (c.key.getD "") c) []

/-- Embeds `App._get_child_using_key(d, key, newchild, render_context)`
(engine.py 234–238): if the key is absent from the index or the classes
differ, the new child is the instance; otherwise the old instance is
reused and `_update_old_component` registers its props change (both
branches of `_update_old_component` call `mark_props_change`, so the
reused instance ends up carrying the new child's props; we model that
effect directly on the returned instance). -/
def get_child_using_key (d : List (String × SComp)) (key : String) (newchild : SComp) :
    SComp :=
  match lookupA d key with
  | none => newchild
  | some oldc =>
      if oldc.cls ≠ newchild.cls then newchild
      else { oldc with props := newchild.props }

/-- The keyed diff of `App._render` (engine.py 272–276): build the
key→old-child index and map `_get_child_using_key` over the new
children. -/
def diff_children (old new : List SComp) : List SComp :=
  let d := key_to_old_child old
  new.map (fun nc => get_child_using_key d (nc.key.getD "") nc)

/-- The dirty-marking performed by `App._update_old_component`
(engine.py 221–232) on the branch taken when `should_update` returns
`False`: the component is marked as not needing command reissue. -/
def update_old_component_no_update (m : NeedMap) (component : Nat) : NeedMap :=
  mark_qt_rerender m component false

/-! ### Component attribute interception and state writes
(component.py lines 162–267)

`CompSt` is the attribute-level state of one `Component` instance:
`real` is the instance `__dict__` (the state attributes), `ctx` is
`_render_changes_context` (`none` = no scope active), `ignored` is
`_ignored_variables`. -/

structure CompSt : Type where
  real : List (String × Value)
  ctx : Option (List (String × Value))
  ignored : List String

/-- Embeds `Component.__getattribute__` (component.py 228–233): while a scope is
active, a name that is in the pending map and not ignored reads the
pending value; otherwise the real attribute (`none` = `AttributeError`). -/
def attr_get (st : CompSt) (k : String) : Option Value :=
  match st.ctx with
  | some m =>
      if (lookupA m k).isSome && !(st.ignored.contains k) then lookupA m k
      else lookupA st.real k
  | none => lookupA st.real k

/-- Embeds `Component.__setattr__` (component.py 236–242): while a scope is
active, a non-ignored write goes into the pending map; otherwise it hits
the real attribute. -/
def attr_set (st : CompSt) (k : String) (v : Value) : CompSt :=
  match st.ctx with
  | some m =>
      if st.ignored.contains k then { st with real := setA st.real k v }
      else { st with ctx := some (setA m k v) }
  | none => { st with real := setA st.real k v }

/-- The rollback loop of `Component.set_state` (component.py 265–266):
`for s in old_vals: super().__setattr__(s, old_vals[s])`. -/
def rollback (real old_vals : List (String × Value)) : List (String × Value) :=
  old_vals.foldl (fun r p => setA r p.1 p.2) real

/-- The write loop of `Component.set_state` (component.py 256–261): for
each kwarg in order, `hasattr(self, s)` (through the `__getattribute__`
override) must hold or a `KeyError` is raised; the old value is read with
`super().__getattribute__(s)` (bypassing the override; `none` =
`AttributeError`), recorded in `old_vals`, and the new value written with
`super().__setattr__`.  On an exception the values recorded so far are
rolled back and the error re-raised (lines 264–267). -/
def set_state_loop (st : CompSt) (old_vals : List (String × Value)) :
    List (String × Value) → Except CompSt (CompSt × List (String × Value))
  | [] => Except.ok (st, old_vals)
  | (s, v) :: rest =>
      if (attr_get st s).isNone then
        Except.error { st with real := rollback st.real old_vals }
      else
        match lookupA st.real s with
        | none => Except.error { st with real := rollback st.real old_vals }
        | some oldv =>
            set_state_loop { st with real := setA st.real s v } (setA old_vals s oldv) rest

/-- Embeds `Component.set_state(**kwargs)` (component.py 244–267): compute
`should_update(PropsDict({}), kwargs)` against the old values (state
reads go through the `__getattribute__` override; an absent attribute
raises here, before anything is applied), then run the write loop; if
`should_update` held, `_request_rerender` runs (`rerenderOk = false`
models it raising), and an exception there rolls back every value
applied in this call.  `Except.error` carries the post-rollback state of
the raising call. -/
def set_state (st : CompSt) (kwargs : List (String × Value)) (rerenderOk : Bool) :
    Except CompSt CompSt :=
  match component_should_update [] (fun s => attr_get st s) [] kwargs with
  | none => Except.error st
  | some su =>
      match set_state_loop st [] kwargs with
      | Except.error st' => Except.error st'
      | Except.ok (st', old_vals) =>
          if su then
            if rerenderOk then Except.ok st'
            else Except.error { st' with real := rollback st'.real old_vals }
          else Except.ok st'

/-- Scope entry of `Component.render_changes` (component.py 207–214):
if no scope is active, install an empty pending map and this scope's
ignored set and remember `entered = True`; otherwise change nothing. -/
def rc_enter (st : CompSt) (ign : List String) : CompSt × Bool :=
  match st.ctx with
  | none => ({ st with ctx := some [], ignored := ign }, true)
  | some _ => (st, false)

/-- Scope exit of `Component.render_changes` (component.py 215–226): the
`finally` block.  If this invocation entered the scope, the pending map
is taken out, the context and ignored set are reset, and — only when no
exception was raised — `set_state` is called once with the full pending
map.  An inner (non-entering) invocation does nothing on exit. -/
def rc_exit (st : CompSt) (entered exception_raised rerenderOk : Bool) :
    Except CompSt CompSt :=
  if entered then
    let changes := st.ctx.getD []
    let st1 : CompSt := { st with ctx := none, ignored := [] }
    if exception_raised then Except.error st1
    else set_state st1 changes rerenderOk
  else
    if exception_raised then Except.error st else Except.ok st

/-- One full `with self.render_changes(ign):` block whose body performs
`writes` in order through `__setattr__` and then either falls off the end
(`raises = false`) or raises (`raises = true`). -/
def run_render_changes (st : CompSt) (ign : List String)
    (writes : List (String × Value)) (raises rerenderOk : Bool) :
    Except CompSt CompSt :=
  let e := rc_enter st ign
  let st2 := writes.foldl (fun s p => attr_set s p.1 p.2) e.1
  rc_exit st2 e.2 raises rerenderOk

/-- The pending map accumulated by a scope from `writes` (the non-ignored
writes, dict-applied in order). -/
def pending_of (writes : List (String × Value)) (ign : List String) :
    List (String × Value) :=
  writes.foldl (fun m p => if ign.contains p.1 then m else setA m p.1 p.2) []

/-- The direct attribute writes a scope lets through (the ignored ones,
dict-applied in order to the real attributes). -/
def real_after_ignored (real : List (String × Value)) (writes : List (String × Value))
    (ign : List String) : List (String × Value) :=
  writes.foldl (fun r p => if ign.contains p.1 then setA r p.1 p.2 else r) real

/-! ### Python values for props/children (component.py lines 10–65,
165–178, 319–322)

`PyVal` models the Python values relevant to props containers and child
lists, with Python truthiness.  A `vobj` is a generic object with neither
`__bool__` nor `__len__` (e.g. a `Component`), hence always truthy. -/

inductive PyVal : Type where
  | vnone
  | vint (n : Int)
  | vstr (s : String)
  | vlist (xs : List PyVal)
  | vdict (entries : List (String × PyVal))
  | vobj (id : Nat)

/-- Python `bool(...)` on a `PyVal`. -/
def pytruthy : PyVal → Bool
  | PyVal.vnone => false
  | PyVal.vint n => decide (n ≠ 0)
  | PyVal.vstr s => decide (s ≠ "")
  | PyVal.vlist xs => !xs.isEmpty
  | PyVal.vdict es => !es.isEmpty
  | PyVal.vobj _ => true

/-- A `PropsDict` (component.py 10–65): a read-only view over a mapping. -/
structure PropsDict : Type where
  d : List (String × PyVal)

/-- Embeds `PropsDict.__setitem__` (component.py 30–31): raises
`ValueError("Props are immutable")`; returns the untouched dict paired
with the raised message. -/
def PropsDict.setitem (p : PropsDict) (_k : String) (_v : PyVal) :
    PropsDict × Option String :=
  (p, some "Props are immutable")

/-- Embeds `PropsDict.__setattr__` (component.py 64–65): raises
`ValueError("Props are immutable")`; returns the untouched dict paired
with the raised message. -/
def PropsDict.setattr_ (p : PropsDict) (_k : String) (_v : PyVal) :
    PropsDict × Option String :=
  (p, some "Props are immutable")

/-- Embeds `Component.__init__` (component.py 165–168): when no props were
registered yet, `self._props = {"children": []}`. -/
def component_init_props : List (String × PyVal) :=
  [("children", PyVal.vlist [])]

/-- Embeds `Component.register_props` (component.py 170–178):
`if "children" not in props: props["children"] = {}` — note the empty
*dict* — then `self._props = props`. -/
def register_props_fn (props : List (String × PyVal)) : List (String × PyVal) :=
  if (lookupA props "children").isSome then props
  else setA props "children" (PyVal.vdict [])

/-- A component as `Component.__call__` sees it: its identity and its
`_props` dict. -/
structure PyComp : Type where
  id : Nat
  props : List (String × PyVal)

/-- Embeds `Component.__call__(*args)` (component.py 319–322):
`children = [a for a in args if a]`, store it under `"children"`, return
`self` (same identity). -/
def component_call (c : PyComp) (args : List PyVal) : PyComp :=
  { c with props := setA c.props "children" (PyVal.vlist (args.filter pytruthy)) }

/-! ## Theorems -/

/-! ### Association-list lemmas -/

theorem lookupA_setA_self {α β : Type} [DecidableEq α] (d : List (α × β)) (k : α) (v : β) :
    lookupA (setA d k v) k = some v := by
  induction d with
  | nil => simp [setA, lookupA]
  | cons hd tl ih =>
      obtain ⟨k', w⟩ := hd
      by_cases h : k' = k
      · simp [setA, h, lookupA]
      · simp [setA, h, lookupA, ih]

theorem lookupA_setA_other {α β : Type} [DecidableEq α] (d : List (α × β)) (k k' : α) (v : β)
    (h : k' ≠ k) : lookupA (setA d k v) k' = lookupA d k' := by
  induction d with
  | nil => simp [setA, lookupA, Ne.symm h]
  | cons hd tl ih =>
      obtain ⟨k₀, w⟩ := hd
      by_cases h0 : k₀ = k
      · subst h0
        simp [setA, lookupA, Ne.symm h]
      · simp [setA, h0, lookupA, ih]


/-! ### C2: change-manager rollback -/

theorem pset_pset_restore {β : Type} (σ : PyState β) (o : Nat) (k : String) (w : Option β) :
    pset (pset σ o k w) o k (σ o k) = σ := by
  funext o' k'
  by_cases h : o' = o ∧ k' = k
  · obtain ⟨h1, h2⟩ := h
    subst h1; subst h2
    simp [pset]
  · simp [pset, h]

theorem undo_entry_set {β : Type} (σ : PyState β) (o : Nat) (k : String) (v : β) :
    undo_entry (pset σ o k (some v)) ⟨o, k, (σ o k).isSome, σ o k, v⟩ = σ := by
  have hr := pset_pset_restore σ o k (some v)
  cases hh : σ o k with
  | none => rw [hh] at hr; simpa [undo_entry, hh] using hr
  | some w => rw [hh] at hr; simpa [undo_entry, hh] using hr

theorem cm_unwind_append_singleton {β : Type} (σ : PyState β) (cs : List (Entry β))
    (e : Entry β) :
    cm_unwind σ (cs ++ [e]) = cm_unwind (undo_entry σ e) cs := by
  simp [cm_unwind, List.reverse_append]

theorem apply_writes_unwind {β : Type} (ws : List (Nat × String × β)) :
    ∀ (σ : PyState β) (cs : List (Entry β)),
      cm_unwind (ws.foldl (fun st w => cm_set st w.1 w.2.1 w.2.2) (σ, cs)).1
                (ws.foldl (fun st w => cm_set st w.1 w.2.1 w.2.2) (σ, cs)).2
        = cm_unwind σ cs := by
  induction ws with
  | nil => intro σ cs; rfl
  | cons w ws ih =>
      intro σ cs
      obtain ⟨o, k, v⟩ := w
      have hstep : cm_set (σ, cs) (o, k, v).1 (o, k, v).2.1 (o, k, v).2.2
          = (pset σ o k (some v), cs ++ [⟨o, k, (σ o k).isSome, σ o k, v⟩]) := rfl
      rw [List.foldl_cons, hstep, ih, cm_unwind_append_singleton, undo_entry_set]

/-- C2: a transaction that records attribute writes through
`_ChangeManager.set` and then raises is unwound by `_storage_manager` to
exactly the pre-transaction heap: attributes that existed regain their
previous values and attributes that did not exist are deleted again
(restored to the absent state, not set to a sentinel), also when the same
attribute was written several times. -/
theorem claim_C2_change_manager_rollback {β : Type} (σ : PyState β)
    (ws : List (Nat × String × β)) :
    (storage_manager_run σ ws true).1 = σ := by
  have h := apply_writes_unwind ws σ []
  have h0 : cm_unwind σ ([] : List (Entry β)) = σ := rfl
  rw [h0] at h
  simpa [storage_manager_run, apply_writes] using h

/-! ### C8: the `children` default -/

/-- C8: a component's props always end up with a `children` entry, but the
default differs between construction and registration: `Component.__init__`
stores `children = []` (an empty list), while `Component.register_props`
stores `children = {}` — an empty *dict*, not the empty ordered sequence
the claim (and the class docstring) promises. -/
theorem claim_C8_register_props_children :
    lookupA component_init_props "children" = some (PyVal.vlist []) ∧
    (∀ props, (lookupA (register_props_fn props) "children").isSome) ∧
    register_props_fn [] = [("children", PyVal.vdict [])] ∧
    PyVal.vdict [] ≠ PyVal.vlist [] := by
  refine ⟨rfl, ?_, rfl, fun h => PyVal.noConfusion h⟩
  intro props
  unfold register_props_fn
  by_cases h : (lookupA props "children").isSome
  · simp [h]
  · simp [h, lookupA_setA_self]

/-! ### C9: props immutability -/

/-- C9: every write through a `PropsDict`, whether by item assignment
(`__setitem__`) or attribute assignment (`__setattr__`), raises
`ValueError("Props are immutable")` and leaves the backing mapping
unchanged — never silently ignored. -/
theorem claim_C9_props_immutable (p : PropsDict) (k : String) (v : PyVal) :
    p.setitem k v = (p, some "Props are immutable") ∧
    p.setattr_ k v = (p, some "Props are immutable") :=
  ⟨rfl, rfl⟩

/-! ### C10: `Component.__call__` filters falsy children -/

/-- C10: calling a component with `*args` sets its `children` prop to the
subsequence of truthy arguments — falsy arguments such as `None`, `0` and
`""` are silently dropped — and returns the same instance. -/
theorem claim_C10_call_children (c : PyComp) (args : List PyVal) :
    (component_call c args).id = c.id ∧
    lookupA (component_call c args).props "children"
      = some (PyVal.vlist (args.filter pytruthy)) ∧
    (args.filter pytruthy).Sublist args ∧
    (∀ a ∈ args, pytruthy a = true → a ∈ args.filter pytruthy) ∧
    (∀ a ∈ args.filter pytruthy, pytruthy a = true) ∧
    pytruthy PyVal.vnone = false ∧
    pytruthy (PyVal.vint 0) = false ∧
    pytruthy (PyVal.vstr "") = false := by
  refine ⟨rfl, lookupA_setA_self _ _ _, List.filter_sublist args, ?_, ?_, rfl,
    by decide, by decide⟩
  · intro a ha hp
    exact List.mem_filter.mpr ⟨ha, hp⟩
  · intro a ha
    exact (List.mem_filter.mp ha).2


/-! ### C5: post-order command emission gated by the dirty map -/

theorem gen_qt_commands_list_eq_flatten (cmds : Nat → List Nat) (need : NeedMap) :
    ∀ ts : List QtTree,
      gen_qt_commands_list cmds need ts = (ts.map (gen_qt_commands cmds need)).flatten := by
  intro ts
  induction ts with
  | nil => rfl
  | cons t ts ih => simp [gen_qt_commands_list, ih]

mutual

theorem gen_qt_commands_untouched (cmds : Nat → List Nat) (need : NeedMap) :
    ∀ t : QtTree, (∀ x ∈ QtTree.comps t, need_rerender need x = false) →
      gen_qt_commands cmds need t = []
  | QtTree.mk c ch, h => by
      have hc : need_rerender need c = false := h c (by simp [QtTree.comps])
      have hch : gen_qt_commands_list cmds need ch = [] :=
        gen_qt_commands_list_untouched cmds need ch
          (fun x hx => h x (by simp [QtTree.comps, List.mem_cons]; exact Or.inr hx))
      simp [gen_qt_commands, hc, hch]

theorem gen_qt_commands_list_untouched (cmds : Nat → List Nat) (need : NeedMap) :
    ∀ ts : List QtTree,
      (∀ x ∈ QtTree.comps.comps_list ts, need_rerender need x = false) →
      gen_qt_commands_list cmds need ts = []
  | [], _ => rfl
  | t :: ts, h => by
      have h1 : gen_qt_commands cmds need t = [] :=
        gen_qt_commands_untouched cmds need t
          (fun x hx => h x (by simp [QtTree.comps.comps_list, List.mem_append]; exact Or.inl hx))
      have h2 : gen_qt_commands_list cmds need ts = [] :=
        gen_qt_commands_list_untouched cmds need ts
          (fun x hx => h x (by simp [QtTree.comps.comps_list, List.mem_append]; exact Or.inr hx))
      simp [gen_qt_commands_list, h1, h2]

end

/-- C5: `gen_qt_commands` is post-order — the returned sequence is each
child subtree's commands in child order followed by the node's own
commands; a node's own update commands appear iff the render context
marks it for command reissue (an unmarked node, `need_rerender = false`
by the dict default, contributes none of its own); a subtree in which no
node is marked contributes zero commands. -/
theorem claim_C5_command_emission (cmds : Nat → List Nat) (need : NeedMap)
    (c : Nat) (ch : List QtTree) (t : QtTree) :
    gen_qt_commands cmds need (QtTree.mk c ch)
      = (ch.map (gen_qt_commands cmds need)).flatten
        ++ (if need_rerender need c then cmds c else []) ∧
    (need_rerender need c = false →
      gen_qt_commands cmds need (QtTree.mk c ch)
        = (ch.map (gen_qt_commands cmds need)).flatten) ∧
    ((∀ x ∈ QtTree.comps t, need_rerender need x = false) →
      gen_qt_commands cmds need t = []) := by
  refine ⟨?_, ?_, gen_qt_commands_untouched cmds need t⟩
  · by_cases h : need_rerender need c
    · simp [gen_qt_commands, h, gen_qt_commands_list_eq_flatten]
    · simp [gen_qt_commands, h, gen_qt_commands_list_eq_flatten]
  · intro h
    simp [gen_qt_commands, h, gen_qt_commands_list_eq_flatten]

/-- Witness for C5 at a concrete two-node tree with an empty dirty map. -/
theorem claim_C5_witness :
    gen_qt_commands (fun n => [n]) [] (QtTree.mk 0 [QtTree.mk 1 []]) = [] :=
  (claim_C5_command_emission (fun n => [n]) [] 0 [] (QtTree.mk 0 [QtTree.mk 1 []])).2.2
    (fun _ _ => rfl)

/-! ### C7: attribute interception inside a `render_changes` scope -/

/-- C7: while a scope is active, a write whose name is not ignored goes
into the pending map (the real attributes untouched), reading it back
returns the pending value, re-entering the scope is a no-op wrapper (the
same state, hence the same outer pending map, and `entered = False`), and
a non-entering exit neither commits nor discards. -/
theorem claim_C7_attribute_interception (st : CompSt) (m : List (String × Value))
    (k : String) (v : Value) (ign' : List String)
    (hctx : st.ctx = some m) (hk : k ∉ st.ignored) :
    attr_set st k v = { st with ctx := some (setA m k v) } ∧
    attr_get (attr_set st k v) k = some v ∧
    rc_enter st ign' = (st, false) ∧
    rc_exit st false false true = Except.ok st ∧
    rc_exit st false true true = Except.error st := by
  have hset : attr_set st k v = { st with ctx := some (setA m k v) } := by
    simp [attr_set, hctx, hk]
  refine ⟨hset, ?_, ?_, rfl, rfl⟩
  · rw [hset]
    simp [attr_get, lookupA_setA_self, hk]
  · simp [rc_enter, hctx]

/-- Witness for C7 at a concrete component state with an active scope. -/
theorem claim_C7_witness :
    attr_get (attr_set ⟨[("x", Value.prim 0)], some [], []⟩ "y" (Value.prim 5)) "y"
      = some (Value.prim 5) :=
  (claim_C7_attribute_interception ⟨[("x", Value.prim 0)], some [], []⟩ [] "y"
    (Value.prim 5) [] rfl (by simp)).2.1


/-! ### C4: `render_changes` scope exit -/

theorem foldl_attr_set_split (writes : List (String × Value)) :
    ∀ (real p : List (String × Value)) (ign : List String),
      writes.foldl (fun s q => attr_set s q.1 q.2) ⟨real, some p, ign⟩
        = ⟨writes.foldl (fun r q => if ign.contains q.1 then setA r q.1 q.2 else r) real,
           some (writes.foldl (fun m q => if ign.contains q.1 then m else setA m q.1 q.2) p),
           ign⟩ := by
  induction writes with
  | nil => intro real p ign; rfl
  | cons w ws ih =>
      intro real p ign
      obtain ⟨k, v⟩ := w
      rw [List.foldl_cons, List.foldl_cons, List.foldl_cons]
      by_cases h : k ∈ ign
      · have e1 : attr_set ⟨real, some p, ign⟩ (k, v).1 (k, v).2
            = ⟨setA real k v, some p, ign⟩ := by simp [attr_set, h]
        have e2 : (if ign.contains (k, v).1 then setA real (k, v).1 (k, v).2 else real)
            = setA real k v := by simp [h]
        have e3 : (if ign.contains (k, v).1 then p else setA p (k, v).1 (k, v).2)
            = p := by simp [h]
        rw [e1, e2, e3, ih]
      · have e1 : attr_set ⟨real, some p, ign⟩ (k, v).1 (k, v).2
            = ⟨real, some (setA p k v), ign⟩ := by simp [attr_set, h]
        have e2 : (if ign.contains (k, v).1 then setA real (k, v).1 (k, v).2 else real)
            = real := by simp [h]
        have e3 : (if ign.contains (k, v).1 then p else setA p (k, v).1 (k, v).2)
            = setA p k v := by simp [h]
        rw [e1, e2, e3, ih]

theorem lookupA_real_after_ignored :
    ∀ (writes : List (String × Value)) (real : List (String × Value)) (ign : List String)
      (k : String), k ∉ ign →
      lookupA (real_after_ignored real writes ign) k = lookupA real k
  | [], _, _, _, _ => rfl
  | (q, v) :: ws, real, ign, k, hk => by
      by_cases h : q ∈ ign
      · have hkq : k ≠ q := fun he => hk (he ▸ h)
        have hstep : real_after_ignored real ((q, v) :: ws) ign
            = real_after_ignored (setA real q v) ws ign := by
          simp [real_after_ignored, h]
        rw [hstep, lookupA_real_after_ignored ws (setA real q v) ign k hk,
            lookupA_setA_other real q k v hkq]
      · have hstep : real_after_ignored real ((q, v) :: ws) ign
            = real_after_ignored real ws ign := by
          simp [real_after_ignored, h]
        rw [hstep, lookupA_real_after_ignored ws real ign k hk]

/-- C4 (amended): for an outermost `render_changes` scope, exiting without
an error commits by one `set_state` call carrying the full accumulated
pending map; exiting via an error discards the pending map (context
cleared, nothing committed) and every attribute **outside the scope's
ignored set** keeps its pre-scope value — writes to ignored attributes
bypass the pending map and are not reverted. -/
theorem claim_C4_render_changes_scope (st : CompSt) (ign : List String)
    (writes : List (String × Value)) (rOk : Bool) (hctx : st.ctx = none) :
    run_render_changes st ign writes false rOk
      = set_state ⟨real_after_ignored st.real writes ign, none, []⟩
          (pending_of writes ign) rOk ∧
    run_render_changes st ign writes true rOk
      = Except.error ⟨real_after_ignored st.real writes ign, none, []⟩ ∧
    (∀ k, k ∉ ign →
      lookupA (real_after_ignored st.real writes ign) k = lookupA st.real k) := by
  have henter : rc_enter st ign = (⟨st.real, some [], ign⟩, true) := by
    simp [rc_enter, hctx]
  have hfold := foldl_attr_set_split writes st.real [] ign
  refine ⟨?_, ?_, fun k hk => lookupA_real_after_ignored writes st.real ign k hk⟩
  · simp only [run_render_changes, henter, hfold]
    simp [rc_exit, pending_of, real_after_ignored]
  · simp only [run_render_changes, henter, hfold]
    simp [rc_exit, pending_of, real_after_ignored]

/-- Counterexample to C4 as stated: a scope opened with
`ignored_variables = ["x"]` writes `x` (which therefore goes straight to
the real attribute) and then raises; after the error exit, `x` holds the
in-scope value `1`, not its pre-scope value `0`. -/
theorem claim_C4_counterexample :
    run_render_changes ⟨[("x", Value.prim 0)], none, []⟩ ["x"]
        [("x", Value.prim 1)] true true
      = Except.error ⟨[("x", Value.prim 1)], none, []⟩ ∧
    Value.prim 1 ≠ Value.prim 0 := by
  refine ⟨rfl, ?_⟩
  intro h
  simp [Value.prim.injEq] at h

/-- Witness for C4 (amended) at a concrete state: an error exit of a
scope with no ignored names leaves the attribute untouched. -/
theorem claim_C4_witness :
    run_render_changes ⟨[("x", Value.prim 0)], none, []⟩ [] [("x", Value.prim 1)] true true
      = Except.error ⟨[("x", Value.prim 0)], none, []⟩ :=
  (claim_C4_render_changes_scope ⟨[("x", Value.prim 0)], none, []⟩ []
    [("x", Value.prim 1)] true rfl).2.1


/-! ### C6: the default `should_update` predicate -/

theorem should_update_props_iff (props : List (String × Value)) :
    ∀ (l : List (String × Value)) (b : Bool), should_update_props props l = some b →
      (b = true ↔ ∃ p ∈ l, ∃ o, lookupA props p.1 = some o ∧
        should_update_helper p.2 o = some true) := by
  intro l
  induction l with
  | nil =>
      intro b h
      unfold should_update_props at h
      simp at h
      subst h
      simp
  | cons hd rest ih =>
      intro b h
      obtain ⟨s, n⟩ := hd
      unfold should_update_props at h
      cases hl : lookupA props s with
      | none => rw [hl] at h; exact absurd h (by simp)
      | some o =>
          rw [hl] at h
          dsimp only at h
          cases hh : should_update_helper n o with
          | none => rw [hh] at h; exact absurd h (by simp)
          | some bh =>
              rw [hh] at h
              cases bh with
              | true =>
                  simp at h
                  subst h
                  simp only [true_iff]
                  exact ⟨(s, n), List.mem_cons_self _ _, o, hl, hh⟩
              | false =>
                  simp at h
                  have hrest := ih b h
                  constructor
                  · intro hb
                    obtain ⟨p, hp, o', ho', hdiff⟩ := hrest.mp hb
                    exact ⟨p, List.mem_cons_of_mem _ hp, o', ho', hdiff⟩
                  · rintro ⟨p, hp, o', ho', hdiff⟩
                    rcases List.mem_cons.mp hp with he | hm
                    · subst he
                      rw [hl] at ho'
                      cases ho'
                      rw [hh] at hdiff
                      exact absurd hdiff (by simp)
                    · exact hrest.mpr ⟨p, hm, o', ho', hdiff⟩

theorem component_should_update_go_iff (g : String → Option Value) :
    ∀ (l : List (String × Value)) (b : Bool),
      component_should_update.go g l = some b →
      (b = true ↔ ∃ p ∈ l, ∃ o, g p.1 = some o ∧
        should_update_helper p.2 o = some true) := by
  intro l
  induction l with
  | nil =>
      intro b h
      unfold component_should_update.go at h
      simp at h
      subst h
      simp
  | cons hd rest ih =>
      intro b h
      obtain ⟨s, n⟩ := hd
      unfold component_should_update.go at h
      cases hl : g s with
      | none => rw [hl] at h; exact absurd h (by simp)
      | some o =>
          rw [hl] at h
          dsimp only at h
          cases hh : should_update_helper n o with
          | none => rw [hh] at h; exact absurd h (by simp)
          | some bh =>
              rw [hh] at h
              cases bh with
              | true =>
                  simp at h
                  subst h
                  simp only [true_iff]
                  exact ⟨(s, n), List.mem_cons_self _ _, o, hl, hh⟩
              | false =>
                  simp at h
                  have hrest := ih b h
                  constructor
                  · intro hb
                    obtain ⟨p, hp, o', ho', hdiff⟩ := hrest.mp hb
                    exact ⟨p, List.mem_cons_of_mem _ hp, o', ho', hdiff⟩
                  · rintro ⟨p, hp, o', ho', hdiff⟩
                    rcases List.mem_cons.mp hp with he | hm
                    · subst he
                      rw [hl] at ho'
                      cases ho'
                      rw [hh] at hdiff
                      exact absurd hdiff (by simp)
                    · exact hrest.mpr ⟨p, hm, o', ho', hdiff⟩

/-- C6: the default `should_update` returns `some true` iff some prop or
state entry differs from the component's current value in the sense of
`should_update_helper` (component classes then recursive `should_update`
on sub-props, array classes then elementwise equality, everything else
value equality); when nothing differs it returns `some false`, and the
corresponding `_update_old_component` branch marks the component as not
needing a Qt command reissue. -/
theorem claim_C6_should_update (props : List (String × Value))
    (g : String → Option Value) (newprops newstate : List (String × Value))
    (b : Bool) (m : NeedMap) (c : Nat)
    (h : component_should_update props g newprops newstate = some b) :
    (b = true ↔
      (∃ p ∈ newprops, ∃ o, lookupA props p.1 = some o ∧
        should_update_helper p.2 o = some true) ∨
      (∃ p ∈ newstate, ∃ o, g p.1 = some o ∧
        should_update_helper p.2 o = some true)) ∧
    (b = false → need_rerender (update_old_component_no_update m c) c = false) := by
  constructor
  · unfold component_should_update at h
    cases hp : should_update_props props newprops with
    | none => rw [hp] at h; exact absurd h (by simp)
    | some bp =>
        rw [hp] at h
        cases bp with
        | true =>
            simp at h
            subst h
            simp only [true_iff]
            exact Or.inl ((should_update_props_iff props newprops true hp).mp rfl)
        | false =>
            simp at h
            have hgo := component_should_update_go_iff g newstate b h
            have hprops := should_update_props_iff props newprops false hp
            constructor
            · intro hb
              exact Or.inr (hgo.mp hb)
            · rintro (hl | hr)
              · exact absurd (hprops.mpr hl) (by simp)
              · exact hgo.mpr hr
  · intro _
    unfold need_rerender update_old_component_no_update mark_qt_rerender
    rw [lookupA_setA_self]
    rfl

/-- Witness for C6 at a concrete component whose single state entry is
unchanged: `should_update` yields `false` and the component is marked as
not needing reissue. -/
theorem claim_C6_witness :
    need_rerender (update_old_component_no_update [] 0) 0 = false :=
  (claim_C6_should_update [] (fun s => if s = "x" then some (Value.prim 1) else none)
    [] [("x", Value.prim 1)] false [] 0 rfl).2 rfl


/-! ### C3: atomicity of `set_state` -/

theorem lookupA_eq_none_iff {β : Type} :
    ∀ (l : List (String × β)) (k : String),
      lookupA l k = none ↔ k ∉ l.map Prod.fst := by
  intro l
  induction l with
  | nil => intro k; simp [lookupA]
  | cons hd tl ih =>
      intro k
      obtain ⟨k₀, w⟩ := hd
      by_cases h : k₀ = k
      · subst h
        simp [lookupA]
      · simp [lookupA, h, ih, Ne.symm h]

theorem mem_of_lookupA_eq_some {β : Type} :
    ∀ (l : List (String × β)) (k : String) (v : β),
      lookupA l k = some v → (k, v) ∈ l := by
  intro l
  induction l with
  | nil => intro k v h; simp [lookupA] at h
  | cons hd tl ih =>
      intro k v h
      obtain ⟨k₀, w⟩ := hd
      by_cases hk : k₀ = k
      · subst hk
        rw [lookupA, if_pos rfl] at h
        cases h
        exact List.mem_cons_self _ _
      · rw [lookupA, if_neg hk] at h
        exact List.mem_cons_of_mem _ (ih k v h)

theorem setA_eq_append_of_not_mem {β : Type} :
    ∀ (l : List (String × β)) (k : String) (v : β),
      k ∉ l.map Prod.fst → setA l k v = l ++ [(k, v)] := by
  intro l
  induction l with
  | nil => intro k v _; rfl
  | cons hd tl ih =>
      intro k v h
      obtain ⟨k₀, w⟩ := hd
      simp only [List.map_cons, List.mem_cons, not_or] at h
      have hne : ¬k₀ = k := fun he => h.1 (Eq.symm he)
      simp only [setA, if_neg hne]
      rw [ih k v h.2]
      simp

theorem rollback_lookup :
    ∀ (ov r : List (String × Value)) (q : String), (ov.map Prod.fst).Nodup →
      lookupA (rollback r ov) q
        = match lookupA ov q with
          | some w => some w
          | none => lookupA r q
  | [], _, _, _ => rfl
  | (s, w) :: rest, r, q, hnd => by
      have hnd' : (rest.map Prod.fst).Nodup := by
        simp only [List.map_cons] at hnd
        exact hnd.of_cons
      have hs : s ∉ rest.map Prod.fst := by
        simp only [List.map_cons, List.nodup_cons] at hnd
        exact hnd.1
      have hstep : rollback r ((s, w) :: rest) = rollback (setA r s w) rest := rfl
      rw [hstep, rollback_lookup rest (setA r s w) q hnd']
      by_cases hq : s = q
      · subst hq
        have h0 : lookupA rest s = none := (lookupA_eq_none_iff rest s).mpr hs
        have h1 : lookupA ((s, w) :: rest) s = some w := by simp [lookupA]
        rw [h0, h1]
        exact lookupA_setA_self r s w
      · have hcons : lookupA ((s, w) :: rest) q = lookupA rest q := by
          simp [lookupA, hq]
        rw [hcons]
        cases hrq : lookupA rest q with
        | some w' => rfl
        | none => exact lookupA_setA_other r s q w (fun he => hq he.symm)

theorem attr_get_setA_other (st : CompSt) (s q : String) (v : Value) (h : q ≠ s) :
    attr_get { st with real := setA st.real s v } q = attr_get st q := by
  unfold attr_get
  cases hc : st.ctx with
  | none => simpa [hc] using lookupA_setA_other st.real s q v h
  | some m =>
      simp only [hc]
      by_cases hcond : (lookupA m q).isSome = true ∧ q ∉ st.ignored
      · simp [hcond]
      · simp [hcond, lookupA_setA_other st.real s q v h]


theorem set_state_loop_spec :
    ∀ (kwargs : List (String × Value)) (st : CompSt) (ov σ0 : List (String × Value)),
      ((ov.map Prod.fst) ++ kwargs.map Prod.fst).Nodup →
      (∀ q, q ∉ ov.map Prod.fst → lookupA st.real q = lookupA σ0 q) →
      (∀ p ∈ ov, lookupA σ0 p.1 = some p.2) →
      (match set_state_loop st ov kwargs with
       | Except.error st' =>
           (∀ q, lookupA st'.real q = lookupA σ0 q) ∧ st'.ctx = st.ctx ∧
             st'.ignored = st.ignored
       | Except.ok x =>
           x.1.ctx = st.ctx ∧ x.1.ignored = st.ignored ∧
           (∀ q, q ∉ kwargs.map Prod.fst → lookupA x.1.real q = lookupA st.real q) ∧
           (∀ p ∈ kwargs, lookupA x.1.real p.1 = some p.2) ∧
           (∀ p ∈ kwargs, (attr_get st p.1).isSome = true) ∧
           (∀ q, lookupA (rollback x.1.real x.2) q = lookupA σ0 q) ∧
           (x.2.map Prod.fst).Nodup)
  | [], st, ov, σ0, hnd, hout, hin => by
      have hovnd : (ov.map Prod.fst).Nodup := by simpa using hnd
      refine ⟨rfl, rfl, fun q _ => rfl, fun p hp => absurd hp (List.not_mem_nil p),
        fun p hp => absurd hp (List.not_mem_nil p), ?_, by simpa using hnd⟩
      intro q
      rw [rollback_lookup ov st.real q hovnd]
      cases hov : lookupA ov q with
      | some w =>
          exact (hin (q, w) (mem_of_lookupA_eq_some ov q w hov)).symm
      | none =>
          exact hout q ((lookupA_eq_none_iff ov q).mp hov)
  | (s, v) :: rest, st, ov, σ0, hnd, hout, hin => by
      have hnd0 : (ov.map Prod.fst ++ (s :: rest.map Prod.fst)).Nodup := by
        simpa using hnd
      have hsplit := List.nodup_append.mp hnd0
      have hrb : ∀ q, lookupA (rollback st.real ov) q = lookupA σ0 q := by
        intro q
        rw [rollback_lookup ov st.real q hsplit.1]
        cases hov : lookupA ov q with
        | some w =>
            exact (hin (q, w) (mem_of_lookupA_eq_some ov q w hov)).symm
        | none =>
            exact hout q ((lookupA_eq_none_iff ov q).mp hov)
      by_cases hga : (attr_get st s).isNone = true
      · have hred : set_state_loop st ov ((s, v) :: rest)
            = Except.error { st with real := rollback st.real ov } := by
          unfold set_state_loop
          simp [hga]
        rw [hred]
        exact ⟨hrb, rfl, rfl⟩
      · cases hreal : lookupA st.real s with
        | none =>
            have hred : set_state_loop st ov ((s, v) :: rest)
                = Except.error { st with real := rollback st.real ov } := by
              unfold set_state_loop
              simp [hga, hreal]
            rw [hred]
            exact ⟨hrb, rfl, rfl⟩
        | some oldv =>
            have hred : set_state_loop st ov ((s, v) :: rest)
                = set_state_loop { st with real := setA st.real s v }
                    (setA ov s oldv) rest := by
              simp only [set_state_loop]
              simp [hga, hreal]
            rw [hred]
            have hs_not_ov : s ∉ ov.map Prod.fst := fun hmem =>
              hsplit.2.2 hmem (by simp)
            have hs_not_rest : s ∉ rest.map Prod.fst :=
              (List.nodup_cons.mp hsplit.2.1).1
            have hova : setA ov s oldv = ov ++ [(s, oldv)] :=
              setA_eq_append_of_not_mem ov s oldv hs_not_ov
            have hkeys : (setA ov s oldv).map Prod.fst = ov.map Prod.fst ++ [s] := by
              rw [hova]; simp
            have hnd₁ : ((setA ov s oldv).map Prod.fst ++ rest.map Prod.fst).Nodup := by
              rw [hkeys, List.append_assoc]
              simpa using hnd0
            have hout₁ : ∀ q, q ∉ (setA ov s oldv).map Prod.fst →
                lookupA (CompSt.real { st with real := setA st.real s v }) q
                  = lookupA σ0 q := by
              intro q hq
              rw [hkeys] at hq
              simp only [List.mem_append, List.mem_singleton, not_or] at hq
              show lookupA (setA st.real s v) q = lookupA σ0 q
              rw [lookupA_setA_other st.real s q v hq.2]
              exact hout q hq.1
            have hin₁ : ∀ p ∈ setA ov s oldv, lookupA σ0 p.1 = some p.2 := by
              intro p hp
              rw [hova] at hp
              rcases List.mem_append.mp hp with h1 | h2
              · exact hin p h1
              · simp only [List.mem_singleton] at h2
                subst h2
                show lookupA σ0 s = some oldv
                rw [← hout s hs_not_ov]
                exact hreal
            have ih := set_state_loop_spec rest { st with real := setA st.real s v }
                (setA ov s oldv) σ0 hnd₁ hout₁ hin₁
            cases hres : set_state_loop { st with real := setA st.real s v }
                (setA ov s oldv) rest with
            | error st' =>
                rw [hres] at ih
                exact ⟨ih.1, ih.2.1, ih.2.2⟩
            | ok x =>
                rw [hres] at ih
                obtain ⟨hctx, hign, hframe, happ, hpres, hrbk, hndv⟩ := ih
                refine ⟨hctx, hign, ?_, ?_, ?_, hrbk, hndv⟩
                · intro q hq
                  simp only [List.map_cons, List.mem_cons, not_or] at hq
                  rw [hframe q hq.2]
                  exact lookupA_setA_other st.real s q v hq.1
                · intro p hp
                  rcases List.mem_cons.mp hp with he | hm
                  · subst he
                    rw [hframe s hs_not_rest]
                    exact lookupA_setA_self st.real s v
                  · exact happ p hm
                · intro p hp
                  rcases List.mem_cons.mp hp with he | hm
                  · subst he
                    cases hag : attr_get st s with
                    | none => rw [hag] at hga; exact absurd rfl hga
                    | some w => rfl
                  · have hp1 : p.1 ≠ s := by
                      intro he
                      exact hs_not_rest (he ▸ List.mem_map_of_mem Prod.fst hm)
                    have := hpres p hm
                    rwa [attr_get_setA_other st s p.1 v hp1] at this

/-- C3: `set_state` computes `should_update` against the pre-call values,
then applies the kwargs; if anything raises — a kwarg naming an attribute
absent on the instance, or the triggered re-render failing — every value
already applied is rolled back so all attributes hold their pre-call
values and the error propagates; on success every named attribute holds
its new value and nothing else changed. -/
theorem claim_C3_set_state (st : CompSt) (kwargs : List (String × Value)) (rOk : Bool)
    (hnd : (kwargs.map Prod.fst).Nodup) :
    (∀ st', set_state st kwargs rOk = Except.error st' →
        (∀ q, lookupA st'.real q = lookupA st.real q) ∧
        st'.ctx = st.ctx ∧ st'.ignored = st.ignored) ∧
    (∀ st', set_state st kwargs rOk = Except.ok st' →
        (∀ p ∈ kwargs, lookupA st'.real p.1 = some p.2) ∧
        (∀ q, q ∉ kwargs.map Prod.fst → lookupA st'.real q = lookupA st.real q) ∧
        st'.ctx = st.ctx ∧ st'.ignored = st.ignored) ∧
    ((∃ p ∈ kwargs, attr_get st p.1 = none) →
        ∀ st', set_state st kwargs rOk ≠ Except.ok st') := by
  have hloop := set_state_loop_spec kwargs st [] st.real (by simpa using hnd)
      (fun q _ => rfl) (fun p hp => absurd hp (List.not_mem_nil p))
  cases hsu : component_should_update [] (fun s => attr_get st s) [] kwargs with
  | none =>
      have hred : set_state st kwargs rOk = Except.error st := by
        unfold set_state
        rw [hsu]
      refine ⟨?_, ?_, ?_⟩
      · intro st' he
        rw [hred] at he
        cases he
        exact ⟨fun q => rfl, rfl, rfl⟩
      · intro st' he
        rw [hred] at he
        cases he
      · intro _ st' he
        rw [hred] at he
        cases he
  | some su =>
      cases hl : set_state_loop st [] kwargs with
      | error st₁ =>
          have hred : set_state st kwargs rOk = Except.error st₁ := by
            unfold set_state
            rw [hsu]
            dsimp only
            rw [hl]
          rw [hl] at hloop
          refine ⟨?_, ?_, ?_⟩
          · intro st' he
            rw [hred] at he
            cases he
            exact hloop
          · intro st' he
            rw [hred] at he
            cases he
          · intro _ st' he
            rw [hred] at he
            cases he
      | ok x =>
          obtain ⟨st₁, ov₁⟩ := x
          rw [hl] at hloop
          obtain ⟨hctx, hign, hframe, happ, hpres, hrbk, hndv⟩ := hloop
          cases su with
          | false =>
              have hred : set_state st kwargs rOk = Except.ok st₁ := by
                unfold set_state
                rw [hsu]
                dsimp only
                rw [hl]
                simp
              refine ⟨?_, ?_, ?_⟩
              · intro st' he
                rw [hred] at he
                cases he
              · intro st' he
                rw [hred] at he
                cases he
                exact ⟨happ, hframe, hctx, hign⟩
              · rintro ⟨p, hp, hnone⟩ st' he
                have := hpres p hp
                rw [hnone] at this
                cases this
          | true =>
              cases rOk with
              | false =>
                  have hred : set_state st kwargs false
                      = Except.error { st₁ with real := rollback st₁.real ov₁ } := by
                    unfold set_state
                    rw [hsu]
                    dsimp only
                    rw [hl]
                    simp
                  refine ⟨?_, ?_, ?_⟩
                  · intro st' he
                    rw [hred] at he
                    cases he
                    exact ⟨hrbk, hctx, hign⟩
                  · intro st' he
                    rw [hred] at he
                    cases he
                  · intro _ st' he
                    rw [hred] at he
                    cases he
              | true =>
                  have hred : set_state st kwargs true = Except.ok st₁ := by
                    unfold set_state
                    rw [hsu]
                    dsimp only
                    rw [hl]
                    simp
                  refine ⟨?_, ?_, ?_⟩
                  · intro st' he
                    rw [hred] at he
                    cases he
                  · intro st' he
                    rw [hred] at he
                    cases he
                    exact ⟨happ, hframe, hctx, hign⟩
                  · rintro ⟨p, hp, hnone⟩ st' he
                    have := hpres p hp
                    rw [hnone] at this
                    cases this

/-- Witness for C3 at a concrete component: a successful batch write
applies the named value. -/
theorem claim_C3_witness :
    lookupA [("a", Value.prim 5)] "a" = some (Value.prim 5) :=
  (((claim_C3_set_state ⟨[("a", Value.prim 0)], none, []⟩ [("a", Value.prim 5)] true
      (by simp)).2.1 ⟨[("a", Value.prim 5)], none, []⟩ rfl).1) ("a", Value.prim 5)
    (List.mem_singleton.mpr rfl)


/-! ### C1: keyed child-list reconciliation -/

theorem getq_map {α β : Type} (f : α → β) :
    ∀ (l : List α) (j : Nat), (l.map f)[j]? = (l[j]?).map f
  | [], j => by simp
  | _ :: _, 0 => by simp
  | _ :: l, j + 1 => by
      simp only [List.map_cons, List.getElem?_cons_succ]
      exact getq_map f l j

theorem ak_go_length :
    ∀ (l : List SComp) (i : Nat), (attach_keys.go i l).1.length = l.length
  | [], _ => rfl
  | c :: rest, i => by
      cases hk : c.key with
      | some k => simp [attach_keys.go, hk, ak_go_length rest (i + 1)]
      | none => simp [attach_keys.go, hk, ak_go_length rest (i + 1)]

theorem ak_go_get :
    ∀ (l : List SComp) (i j : Nat),
      (attach_keys.go i l).1[j]?
        = (l[j]?).map (fun c =>
            match c.key with
            | some _ => c
            | none => { c with key := some ("KEY" ++ toString (i + j)) })
  | [], i, j => by simp [attach_keys.go]
  | c :: rest, i, 0 => by
      cases hk : c.key with
      | some k => simp [attach_keys.go, hk]
      | none => simp [attach_keys.go, hk]
  | c :: rest, i, j + 1 => by
      have hrec := ak_go_get rest (i + 1) j
      have harith : (i + 1) + j = i + (j + 1) := by omega
      rw [harith] at hrec
      cases hk : c.key with
      | some k =>
          have hgo : (attach_keys.go i (c :: rest)).1
              = c :: (attach_keys.go (i + 1) rest).1 := by
            simp [attach_keys.go, hk]
          rw [hgo, List.getElem?_cons_succ, List.getElem?_cons_succ, hrec]
      | none =>
          have hgo : (attach_keys.go i (c :: rest)).1
              = { c with key := some ("KEY" ++ toString i) }
                  :: (attach_keys.go (i + 1) rest).1 := by
            simp [attach_keys.go, hk]
          rw [hgo, List.getElem?_cons_succ, List.getElem?_cons_succ, hrec]

theorem ak_go_warn :
    ∀ (l : List SComp) (i j : Nat) (c : SComp), l[j]? = some c → c.key = none →
      ("Setting child key to: KEY" ++ toString (i + j)) ∈ (attach_keys.go i l).2
  | [], _, j, c, hc, _ => by simp at hc
  | c₀ :: rest, i, 0, c, hc, hk => by
      rw [List.getElem?_cons_zero] at hc
      cases hc
      simp [attach_keys.go, hk]
  | c₀ :: rest, i, j + 1, c, hc, hk => by
      rw [List.getElem?_cons_succ] at hc
      have hrec := ak_go_warn rest (i + 1) j c hc hk
      have harith : (i + 1) + j = i + (j + 1) := by omega
      rw [harith] at hrec
      cases hck : c₀.key with
      | some k => simpa [attach_keys.go, hck] using hrec
      | none =>
          have hgo : (attach_keys.go i (c₀ :: rest)).2
              = ("Setting child key to: KEY" ++ toString i)
                  :: (attach_keys.go (i + 1) rest).2 := by
            simp [attach_keys.go, hck]
          rw [hgo]
          exact List.mem_cons_of_mem _ hrec

/-- C1: in the keyed diff of `App._render`, every new child first gets a
positional key `"KEY{i}"` (with the logged warning
`"Setting child key to: KEY{i}"`) when it lacks an explicit one; then,
per new child, if its key is in the key→old-child index built from the
previous children and the indexed old child's class equals the new
child's class, the old instance is reused with its props replaced by the
new child's props, and otherwise the new child itself becomes the
instance at that position.  The hypothesis that all old children carry
keys matches the Python precondition (a keyless old child would raise
`AttributeError` at the index comprehension). -/
theorem claim_C1_keyed_reconciliation (O N : List SComp)
    (_hO : ∀ c ∈ O, c.key.isSome = true) :
    (attach_keys N).1.length = N.length ∧
    (∀ (i : Nat) (c : SComp), N[i]? = some c →
        (c.key ≠ none → (attach_keys N).1[i]? = some c) ∧
        (c.key = none →
          (attach_keys N).1[i]?
            = some { c with key := some ("KEY" ++ toString i) })) ∧
    (∀ (i : Nat) (c : SComp), N[i]? = some c → c.key = none →
        ("Setting child key to: KEY" ++ toString i) ∈ (attach_keys N).2) ∧
    (∀ (j : Nat) (nc : SComp), (attach_keys N).1[j]? = some nc →
        (∀ oldc, lookupA (key_to_old_child O) (nc.key.getD "") = some oldc →
            (oldc.cls = nc.cls →
              (diff_children O (attach_keys N).1)[j]?
                = some { oldc with props := nc.props }) ∧
            (oldc.cls ≠ nc.cls →
              (diff_children O (attach_keys N).1)[j]? = some nc)) ∧
        (lookupA (key_to_old_child O) (nc.key.getD "") = none →
            (diff_children O (attach_keys N).1)[j]? = some nc)) := by
  refine ⟨ak_go_length N 0, ?_, ?_, ?_⟩
  · intro i c hc
    have hget := ak_go_get N 0 i
    rw [Nat.zero_add] at hget
    rw [hc] at hget
    constructor
    · intro hk
      cases hck : c.key with
      | none => exact absurd hck hk
      | some k =>
          rw [show attach_keys N = attach_keys.go 0 N from rfl]
          rw [hget]
          simp [hck]
    · intro hk
      rw [show attach_keys N = attach_keys.go 0 N from rfl]
      rw [hget]
      simp [hk]
  · intro i c hc hk
    have := ak_go_warn N 0 i c hc hk
    rwa [Nat.zero_add] at this
  · intro j nc hnc
    have hdiff : (diff_children O (attach_keys N).1)[j]?
        = ((attach_keys N).1[j]?).map
            (fun nc => get_child_using_key (key_to_old_child O) (nc.key.getD "") nc) := by
      exact getq_map _ (attach_keys N).1 j
    rw [hnc] at hdiff
    constructor
    · intro oldc holdc
      constructor
      · intro hcls
        rw [hdiff]
        simp only [Option.map_some']
        congr 1
        unfold get_child_using_key
        rw [holdc]
        simp [hcls]
      · intro hcls
        rw [hdiff]
        simp only [Option.map_some']
        congr 1
        unfold get_child_using_key
        rw [holdc]
        simp [hcls]
    · intro hnone
      rw [hdiff]
      simp only [Option.map_some']
      congr 1
      unfold get_child_using_key
      rw [hnone]

/-- Witness for C1: one keyed old child is reused (same identity, new
props) by a same-class new child with the same key. -/
theorem claim_C1_witness :
    (diff_children [⟨1, 7, some "a", []⟩]
        (attach_keys [⟨2, 7, some "a", [("p", Value.prim 3)]⟩]).1)[0]?
      = some ⟨1, 7, some "a", [("p", Value.prim 3)]⟩ := by
  have h := (claim_C1_keyed_reconciliation [⟨1, 7, some "a", []⟩]
      [⟨2, 7, some "a", [("p", Value.prim 3)]⟩]
      (fun c hc => by rw [List.mem_singleton.mp hc]; rfl)).2.2.2 0
      ⟨2, 7, some "a", [("p", Value.prim 3)]⟩ rfl
  exact (h.1 ⟨1, 7, some "a", []⟩ rfl).1 rfl

end Edifice
